import Mathlib

/-!
Verification development for the chafka Kafka-to-ClickHouse ingester.

The definitions below are a shallow embedding of the source:
- the ClickHouse value and type vocabulary used by the decoders
  (clickhouse_rs types, restricted to the variants the source constructs);
- the avro schema analysis and value conversion of src/decoder/avro.rs;
- the decoder factory of src/decoder.rs;
- the batch / offset-map / insert-retry state machine of src/ingester.rs.

External library calls that perform I/O or are outside the embedding
(chrono timestamp conversion, avro datum parsing, the decoder passed to the
ingester loop) are taken as parameters of the corresponding functions, so the
theorems hold for every behaviour of those collaborators.
-/

namespace Chafka

/-- Time zone tag; the source only ever uses chrono_tz::UTC. -/
inductive Tz
  | utc
deriving DecidableEq

/-- Opaque bit pattern of an IEEE float; float payloads are only forwarded
between avro and clickhouse values, never computed with. -/
structure FloatVal where
  bits : Nat
deriving DecidableEq

/-- 128-bit uuid value (uuid::Uuid); Uuid::nil() is the all-zero uuid. -/
structure UuidVal where
  bits : Nat
deriving DecidableEq

/-- Model of clickhouse_rs SqlType restricted to the descriptors the source
produces. SqlType::DateTime(DateTimeType::DateTime64(p, tz)) is `dateTime64 p tz`. -/
inductive SqlTypeT
  | bool
  | int32
  | int64
  | float32
  | float64
  | string
  | uuid
  | date
  | dateTime64 (precision : Nat) (tz : Tz)
deriving DecidableEq

/-- Model of clickhouse_rs types::Value restricted to the variants the source
constructs. Value::String holds raw bytes whether it was built from a rust
String or from a Vec of bytes, hence the single `str` constructor. -/
inductive CHValue
  | bool (b : Bool)
  | int32 (x : Int)
  | int64 (x : Int)
  | uint64 (x : Nat)
  | float32 (x : FloatVal)
  | float64 (x : FloatVal)
  | str (bytes : List Nat)
  | uuid (u : UuidVal)
  | date (days : Nat)
  | dateTime (ts : Nat) (tz : Tz)
  | dateTime64 (ticks : Int) (precision : Nat) (tz : Tz)
  | array (elemType : SqlTypeT) (items : List CHValue)
  | map (keyType valType : SqlTypeT) (entries : List (CHValue × CHValue))

/-- ClickHouse row: vector of (column name, value) pairs (Row in src/decoder.rs). -/
abbrev Row := List (String × CHValue)

/-- Bytes of a rust String as they are stored inside clickhouse_rs
Value::String (utf-8 encoding). -/
def utf8Bytes (s : String) : List Nat :=
  (s.data.flatMap String.utf8EncodeChar).map (fun b => b.toNat)

/-- Model of apache_avro Schema restricted to what the source inspects.
The record constructor keeps only the list of fields, each a pair of the
field name and the field schema (the other RecordSchema attributes are
never read by the source). -/
inductive AvroSchema
  | null
  | boolean
  | int
  | long
  | float
  | double
  | bytes
  | string
  | uuid
  | date
  | timeMillis
  | timeMicros
  | timestampMillis
  | timestampMicros
  | localTimestampMillis
  | localTimestampMicros
  | duration
  | decimal
  | fixed (size : Nat)
  | enum (symbols : List String)
  | array (elem : AvroSchema)
  | map (value : AvroSchema)
  | union (variants : List AvroSchema)
  | record (fields : List (String × AvroSchema))

/-- A field of a record schema: its name and its schema. -/
abbrev FieldT := String × AvroSchema

/-- Translation of an avro type into the clickhouse type and its zero value
(get_schema_type in src/decoder/avro.rs). -/
def get_schema_type : AvroSchema → Except String (SqlTypeT × CHValue)
  | .boolean => .ok (.bool, .bool false)
  | .int => .ok (.int32, .int32 0)
  | .long => .ok (.int64, .int64 0)
  | .float => .ok (.float32, .float32 ⟨0⟩)
  | .double => .ok (.float64, .float64 ⟨0⟩)
  | .bytes => .ok (.string, .str [])
  | .string => .ok (.string, .str (utf8Bytes ""))
  | .uuid => .ok (.uuid, .uuid ⟨0⟩)
  | .date => .ok (.date, .date 0)
  | .timeMillis => .ok (.int32, .dateTime 0 .utc)
  | .timeMicros => .ok (.int32, .dateTime 0 .utc)
  | .timestampMillis => .ok (.dateTime64 3 .utc, .dateTime64 0 3 .utc)
  | .timestampMicros => .ok (.dateTime64 6 .utc, .dateTime64 0 6 .utc)
  | .localTimestampMillis => .ok (.dateTime64 3 .utc, .dateTime64 0 3 .utc)
  | .localTimestampMicros => .ok (.dateTime64 6 .utc, .dateTime64 0 6 .utc)
  | .duration => .ok (.int64, .uint64 0)
  | _ => .error "unsupported type"

/-- The sixteen avro types that have a translation row in get_schema_type. -/
def supportedSchemaType : AvroSchema → Bool
  | .boolean | .int | .long | .float | .double | .bytes | .string | .uuid
  | .date | .timeMillis | .timeMicros | .timestampMillis | .timestampMicros
  | .localTimestampMillis | .localTimestampMicros | .duration => true
  | _ => false

example : utf8Bytes "" = [] := rfl
example : utf8Bytes "ab" = [97, 98] := by decide

/-- C4: get_schema_type implements exactly the fixed translation table of
the spec (boolean to Bool with zero false, int to Int32 zero 0, long to Int64
zero 0, float and double to Float32 and Float64 with zero 0.0, bytes and
string to String with empty zero, uuid to Uuid with nil zero, date to Date 0,
time-millis and time-micros to Int32 with zero DateTime(0, UTC),
timestamp-millis and local-timestamp-millis to DateTime64(3, UTC) with zero
DateTime64(0, (3, UTC)), timestamp-micros and local-timestamp-micros to
DateTime64(6, UTC) with zero DateTime64(0, (6, UTC)), duration to Int64 with
zero UInt64(0)), and returns the error "unsupported type" for every other
avro schema type, in particular for decimal and fixed. -/
theorem get_schema_type_table :
    get_schema_type .boolean = .ok (.bool, .bool false) ∧
    get_schema_type .int = .ok (.int32, .int32 0) ∧
    get_schema_type .long = .ok (.int64, .int64 0) ∧
    get_schema_type .float = .ok (.float32, .float32 ⟨0⟩) ∧
    get_schema_type .double = .ok (.float64, .float64 ⟨0⟩) ∧
    get_schema_type .bytes = .ok (.string, .str []) ∧
    get_schema_type .string = .ok (.string, .str []) ∧
    get_schema_type .uuid = .ok (.uuid, .uuid ⟨0⟩) ∧
    get_schema_type .date = .ok (.date, .date 0) ∧
    get_schema_type .timeMillis = .ok (.int32, .dateTime 0 .utc) ∧
    get_schema_type .timeMicros = .ok (.int32, .dateTime 0 .utc) ∧
    get_schema_type .timestampMillis = .ok (.dateTime64 3 .utc, .dateTime64 0 3 .utc) ∧
    get_schema_type .timestampMicros = .ok (.dateTime64 6 .utc, .dateTime64 0 6 .utc) ∧
    get_schema_type .localTimestampMillis = .ok (.dateTime64 3 .utc, .dateTime64 0 3 .utc) ∧
    get_schema_type .localTimestampMicros = .ok (.dateTime64 6 .utc, .dateTime64 0 6 .utc) ∧
    get_schema_type .duration = .ok (.int64, .uint64 0) ∧
    get_schema_type .decimal = .error "unsupported type" ∧
    (∀ n, get_schema_type (.fixed n) = .error "unsupported type") ∧
    (∀ s, supportedSchemaType s = false → get_schema_type s = .error "unsupported type") := by
  refine ⟨rfl, rfl, rfl, rfl, rfl, rfl, rfl, rfl, rfl, rfl, rfl, rfl, rfl, rfl, rfl,
    rfl, rfl, fun n => rfl, fun s h => ?_⟩
  cases s <;> first | rfl | simp [supportedSchemaType] at h

/-- Witness for get_schema_type_table: the unsupported-type clause evaluated
at the union and enum schemas. -/
theorem get_schema_type_table_witness :
    get_schema_type (.union [.null, .long]) = .error "unsupported type" ∧
    get_schema_type (.enum ["A", "B"]) = .error "unsupported type" := by
  obtain ⟨-, -, -, -, -, -, -, -, -, -, -, -, -, -, -, -, -, -, h⟩ := get_schema_type_table
  exact ⟨h _ rfl, h _ rfl⟩

/-- The loop body of TypeMapping::new in src/decoder/avro.rs: array fields
contribute to the array mapping, map fields to the map mapping, anything else
is skipped; the element type is translated by get_schema_type. -/
def typeMappingNew : List FieldT → Except String ((List (String × SqlTypeT)) × (List (String × SqlTypeT)))
  | [] => .ok ([], [])
  | (n, s) :: rest =>
    match s with
    | .array v =>
      match get_schema_type v with
      | .error e => .error e
      | .ok t =>
        match typeMappingNew rest with
        | .error e => .error e
        | .ok (arr, m) => .ok ((n, t.1) :: arr, m)
    | .map v =>
      match get_schema_type v with
      | .error e => .error e
      | .ok t =>
        match typeMappingNew rest with
        | .error e => .error e
        | .ok (arr, m) => .ok (arr, (n, t.1) :: m)
    | _ => typeMappingNew rest

/-- One iteration of the field loop of analyze_schema in src/decoder/avro.rs:
a nested record fails, a union must be exactly [null, T] and contributes
(name, zero value of T) to the null values, anything else contributes nothing. -/
def fieldNullValue (f : FieldT) : Except String (Option (String × CHValue)) :=
  match f.2 with
  | .record _ => .error ("field " ++ f.1 ++ ": nested records are not supported")
  | .union vs =>
    match vs with
    | [AvroSchema.null, v1] =>
      match get_schema_type v1 with
      | .error e => .error e
      | .ok p => .ok (some (f.1, p.2))
    | _ => .error ("field " ++ f.1 ++ ": only supported union type is [null, <type>]")
  | _ => .ok none

/-- The field loop of analyze_schema, collecting the null-value table. -/
def nullValuesLoop : List FieldT → Except String (List (String × CHValue))
  | [] => .ok []
  | f :: rest =>
    match fieldNullValue f with
    | .error e => .error e
    | .ok none => nullValuesLoop rest
    | .ok (some p) =>
      match nullValuesLoop rest with
      | .error e => .error e
      | .ok tail => .ok (p :: tail)

/-- analyze_schema in src/decoder/avro.rs: first TypeMapping::new over all
fields, then the per-field record/union checks collecting null values. -/
def analyze_schema (fields : List FieldT) :
    Except String ((List (String × SqlTypeT)) × (List (String × SqlTypeT)) × (List (String × CHValue))) :=
  match typeMappingNew fields with
  | .error e => .error e
  | .ok (arr, m) =>
    match nullValuesLoop fields with
    | .error e => .error e
    | .ok nv => .ok (arr, m, nv)

/-- The entry a single field contributes to the null-value table, when any. -/
def nullValueEntry (f : FieldT) : Option (String × CHValue) :=
  match fieldNullValue f with
  | .ok (some p) => some p
  | _ => none

/-- Specification-side description of the null-value table: the fields
declared as union [null, T] with supported T, paired with the zero value of T. -/
def nullValuesSpec (fields : List FieldT) : List (String × CHValue) :=
  fields.filterMap nullValueEntry

theorem fieldNullValue_union_null (n : String) (v1 : AvroSchema) :
    fieldNullValue (n, AvroSchema.union [AvroSchema.null, v1]) =
      match get_schema_type v1 with
      | .error e => .error e
      | .ok p => .ok (some (n, p.2)) := rfl

theorem fieldNullValue_union_bad (n : String) (vs : List AvroSchema)
    (h : ∀ v1, vs ≠ [AvroSchema.null, v1]) :
    fieldNullValue (n, AvroSchema.union vs) =
      .error ("field " ++ n ++ ": only supported union type is [null, <type>]") := by
  rcases vs with _ | ⟨v0, _ | ⟨v1, _ | ⟨v2, vrest⟩⟩⟩
  · rfl
  · cases v0 <;> rfl
  · cases v0
    case null => exact absurd rfl (h v1)
    all_goals rfl
  · cases v0 <;> rfl

theorem fieldNullValue_fst (f : FieldT) (p : String × CHValue)
    (h : fieldNullValue f = .ok (some p)) : p.1 = f.1 := by
  obtain ⟨n, s⟩ := f
  cases s
  case union vs =>
    rcases vs with _ | ⟨v0, _ | ⟨v1, _ | ⟨v2, vrest⟩⟩⟩
    · rw [fieldNullValue_union_bad n [] (by intro v1 hc; cases hc)] at h; cases h
    · rw [fieldNullValue_union_bad n [v0] (by intro v1 hc; cases hc)] at h; cases h
    · by_cases hv0 : v0 = AvroSchema.null
      · subst hv0
        rw [fieldNullValue_union_null] at h
        cases hg : get_schema_type v1 with
        | error e => rw [hg] at h; cases h
        | ok q =>
          rw [hg] at h
          obtain rfl : (n, q.2) = p := Except.ok.inj h |> Option.some.inj
          rfl
      · rw [fieldNullValue_union_bad n (v0 :: [v1])
          (by intro w hc; simp only [List.cons.injEq] at hc; exact hv0 hc.1)] at h
        cases h
    · rw [fieldNullValue_union_bad n (v0 :: v1 :: v2 :: vrest) (by intro w hc; cases hc)] at h
      cases h
  all_goals simp [fieldNullValue] at h

theorem nullValuesLoop_error_of_record (fields : List FieldT) (n : String)
    (rf : List (String × AvroSchema)) (h : (n, AvroSchema.record rf) ∈ fields) :
    ∃ e, nullValuesLoop fields = .error e := by
  induction fields with
  | nil => cases h
  | cons f rest ih =>
    rcases List.mem_cons.1 h with heq | hmem
    · subst heq
      exact ⟨_, rfl⟩
    · obtain ⟨e, he⟩ := ih hmem
      cases hf : fieldNullValue f with
      | error e' => exact ⟨e', by simp [nullValuesLoop, hf]⟩
      | ok o =>
        cases o with
        | none => exact ⟨e, by simp [nullValuesLoop, hf, he]⟩
        | some p => exact ⟨e, by simp [nullValuesLoop, hf, he]⟩

theorem nullValuesLoop_ok_all (fields : List FieldT) (nv : List (String × CHValue))
    (h : nullValuesLoop fields = .ok nv) :
    ∀ f ∈ fields, ∃ o, fieldNullValue f = .ok o := by
  induction fields generalizing nv with
  | nil => intro f hf; cases hf
  | cons g rest ih =>
    intro f hf
    cases hg : fieldNullValue g with
    | error e => simp [nullValuesLoop, hg] at h
    | ok o =>
      rcases List.mem_cons.1 hf with heq | hmem
      · exact heq ▸ ⟨o, hg⟩
      · cases o with
        | none =>
          simp only [nullValuesLoop, hg] at h
          exact ih nv h f hmem
        | some p =>
          simp only [nullValuesLoop, hg] at h
          cases hrest : nullValuesLoop rest with
          | error e => simp [hrest] at h
          | ok tail => exact ih tail hrest f hmem

theorem nullValuesLoop_ok_spec (fields : List FieldT) (nv : List (String × CHValue))
    (h : nullValuesLoop fields = .ok nv) : nv = nullValuesSpec fields := by
  induction fields generalizing nv with
  | nil =>
    simp only [nullValuesLoop, Except.ok.injEq] at h
    simp [nullValuesSpec, ← h]
  | cons g rest ih =>
    cases hg : fieldNullValue g with
    | error e => simp [nullValuesLoop, hg] at h
    | ok o =>
      cases o with
      | none =>
        simp only [nullValuesLoop, hg] at h
        simpa [nullValuesSpec, List.filterMap_cons, nullValueEntry, hg] using ih nv h
      | some p =>
        simp only [nullValuesLoop, hg] at h
        cases hrest : nullValuesLoop rest with
        | error e => simp [hrest] at h
        | ok tail =>
          simp only [hrest, Except.ok.injEq] at h
          subst h
          simp [nullValuesSpec, List.filterMap_cons, nullValueEntry, hg, ih tail hrest]

theorem nullValuesSpec_keys_sublist (fields : List FieldT) :
    ((nullValuesSpec fields).map Prod.fst).Sublist (fields.map Prod.fst) := by
  induction fields with
  | nil => simp [nullValuesSpec]
  | cons g rest ih =>
    cases hg : fieldNullValue g with
    | error e =>
      simp only [nullValuesSpec, List.filterMap_cons, nullValueEntry, hg, List.map_cons]
      exact ih.trans (List.sublist_cons_self _ _)
    | ok o =>
      cases o with
      | none =>
        simp only [nullValuesSpec, List.filterMap_cons, nullValueEntry, hg, List.map_cons]
        exact ih.trans (List.sublist_cons_self _ _)
      | some p =>
        simp only [nullValuesSpec, List.filterMap_cons, nullValueEntry, hg, List.map_cons]
        rw [fieldNullValue_fst g p hg]
        exact List.cons_sublist_cons.2 ih

theorem find_eq_of_nodup {α : Type} (l : List (String × α)) (n : String) (z : α)
    (hnd : (l.map Prod.fst).Nodup) (hmem : (n, z) ∈ l) :
    l.find? (fun p => p.1 == n) = some (n, z) := by
  induction l with
  | nil => cases hmem
  | cons g rest ih =>
    rcases List.mem_cons.1 hmem with heq | hmem'
    · subst heq
      simp [List.find?]
    · have hgn : g.1 ≠ n := by
        intro hgn
        have hin : n ∈ rest.map Prod.fst := List.mem_map.2 ⟨(n, z), hmem', rfl⟩
        simp only [List.map_cons, List.nodup_cons, hgn] at hnd
        exact hnd.1 hin
      have hb : (g.1 == n) = false := beq_eq_false_iff_ne.2 hgn
      simp only [List.find?, hb]
      simp only [List.map_cons, List.nodup_cons] at hnd
      exact ih hnd.2 hmem'

/-- C3: schema analysis fails whenever some field is a nested record (with the
error "nested records are not supported" when it is the only field); when
analysis succeeds, every union field has exactly two variants with the first
being null, the second variant T is supported, and (field name, zero value of
T) is in the returned null-value table; a union field of any other shape makes
analysis fail (with the error "only supported union type is [null, <type>]"
when it is the only field). -/
theorem analyze_schema_union_and_record :
    (∀ (fields : List FieldT) (n : String) (rf : List (String × AvroSchema)),
      (n, AvroSchema.record rf) ∈ fields → ∃ e, analyze_schema fields = .error e) ∧
    (∀ (fields : List FieldT) arr m nv (n : String) (vs : List AvroSchema),
      analyze_schema fields = .ok (arr, m, nv) → (n, AvroSchema.union vs) ∈ fields →
      ∃ v1 st z, vs = [AvroSchema.null, v1] ∧ get_schema_type v1 = .ok (st, z) ∧ (n, z) ∈ nv) ∧
    (∀ (fields : List FieldT) (n : String) (vs : List AvroSchema),
      (n, AvroSchema.union vs) ∈ fields → (∀ v1, vs ≠ [AvroSchema.null, v1]) →
      ∃ e, analyze_schema fields = .error e) ∧
    (∀ (n : String) (rf : List (String × AvroSchema)),
      analyze_schema [(n, AvroSchema.record rf)] =
        .error ("field " ++ n ++ ": nested records are not supported")) ∧
    (∀ (n : String) (vs : List AvroSchema), (∀ v1, vs ≠ [AvroSchema.null, v1]) →
      analyze_schema [(n, AvroSchema.union vs)] =
        .error ("field " ++ n ++ ": only supported union type is [null, <type>]")) := by
  have hfail : ∀ (fields : List FieldT), (∃ e, nullValuesLoop fields = .error e) →
      ∃ e, analyze_schema fields = .error e := by
    rintro fields ⟨e, he⟩
    cases htm : typeMappingNew fields with
    | error e' => exact ⟨e', by simp [analyze_schema, htm]⟩
    | ok am =>
      obtain ⟨a, m⟩ := am
      exact ⟨e, by simp [analyze_schema, htm, he]⟩
  refine ⟨?_, ?_, ?_, ?_, ?_⟩
  · intro fields n rf h
    exact hfail fields (nullValuesLoop_error_of_record fields n rf h)
  · intro fields arr m nv n vs hok hmem
    have hloop : nullValuesLoop fields = .ok nv := by
      cases htm : typeMappingNew fields with
      | error e => simp [analyze_schema, htm] at hok
      | ok am =>
        obtain ⟨a, m'⟩ := am
        cases hl : nullValuesLoop fields with
        | error e => simp [analyze_schema, htm, hl] at hok
        | ok nv' =>
          simp only [analyze_schema, htm, hl, Except.ok.injEq, Prod.mk.injEq] at hok
          rw [← hok.2.2]
    obtain ⟨o, ho⟩ := nullValuesLoop_ok_all fields nv hloop (n, .union vs) hmem
    rcases vs with _ | ⟨v0, _ | ⟨v1, _ | ⟨v2, vrest⟩⟩⟩
    · rw [fieldNullValue_union_bad n [] (by intro w hc; cases hc)] at ho; cases ho
    · rw [fieldNullValue_union_bad n [v0] (by intro w hc; cases hc)] at ho; cases ho
    · by_cases hv0 : v0 = AvroSchema.null
      · subst hv0
        cases hg : get_schema_type v1 with
        | error e =>
          rw [fieldNullValue_union_null, hg] at ho; cases ho
        | ok q =>
          refine ⟨v1, q.1, q.2, rfl, by simp [hg], ?_⟩
          rw [nullValuesLoop_ok_spec fields nv hloop]
          refine List.mem_filterMap.2 ⟨(n, .union [AvroSchema.null, v1]), hmem, ?_⟩
          simp [nullValueEntry, fieldNullValue_union_null, hg]
      · rw [fieldNullValue_union_bad n (v0 :: [v1])
          (by intro w hc; simp only [List.cons.injEq] at hc; exact hv0 hc.1)] at ho
        cases ho
    · rw [fieldNullValue_union_bad n (v0 :: v1 :: v2 :: vrest) (by intro w hc; cases hc)] at ho
      cases ho
  · intro fields n vs hmem hshape
    apply hfail
    induction fields with
    | nil => cases hmem
    | cons g rest ih =>
      rcases List.mem_cons.1 hmem with heq | hmem'
      · subst heq
        refine ⟨"field " ++ n ++ ": only supported union type is [null, <type>]", ?_⟩
        simp [nullValuesLoop, fieldNullValue_union_bad n vs hshape]
      · obtain ⟨e, he⟩ := ih hmem'
        cases hf : fieldNullValue g with
        | error e' => exact ⟨e', by simp [nullValuesLoop, hf]⟩
        | ok o =>
          cases o with
          | none => exact ⟨e, by simp [nullValuesLoop, hf, he]⟩
          | some p => exact ⟨e, by simp [nullValuesLoop, hf, he]⟩
  · intro n rf
    rfl
  · intro n vs hshape
    have h1 : typeMappingNew [(n, AvroSchema.union vs)] = .ok ([], []) := rfl
    simp [analyze_schema, h1, nullValuesLoop, fieldNullValue_union_bad n vs hshape]

/-- Witness for analyze_schema_union_and_record: a schema with a nested record
field fails; the schema with single field x of union type [null, long] is
accepted with null-value entry (x, Int64(0)); the union [long, null] (wrong
variant order) is rejected with the documented error message. -/
theorem analyze_schema_union_and_record_witness :
    (∃ e, analyze_schema [("a", AvroSchema.record [])] = .error e) ∧
    (∃ v1 st z, [AvroSchema.null, AvroSchema.long] = [AvroSchema.null, v1] ∧
      get_schema_type v1 = .ok (st, z) ∧ ("x", z) ∈ [("x", CHValue.int64 0)]) ∧
    analyze_schema [("y", AvroSchema.union [AvroSchema.long, AvroSchema.null])] =
      .error ("field " ++ "y" ++ ": only supported union type is [null, <type>]") := by
  refine ⟨analyze_schema_union_and_record.1 _ "a" [] (by simp),
    analyze_schema_union_and_record.2.1 [("x", AvroSchema.union [AvroSchema.null, AvroSchema.long])]
      [] [] [("x", CHValue.int64 0)] "x" [AvroSchema.null, AvroSchema.long] rfl (by simp), ?_⟩
  exact analyze_schema_union_and_record.2.2.2.2 "y" [AvroSchema.long, AvroSchema.null]
    (by intro v1 hc; simp at hc)

/-- Decode-time failure: `err` models a returned anyhow::Error, `panic` models
a panic from unwrap on a missing type-mapping entry. -/
inductive DecErr
  | panic
  | err (msg : String)

/-- Model of apache_avro types::Value restricted to the variants the source
matches on. The union constructor keeps the variant position (ignored by the
source) and the boxed inner value; duration keeps the three u32 components. -/
inductive AvValue
  | null
  | boolean (b : Bool)
  | int (x : Int)
  | long (x : Int)
  | float (x : FloatVal)
  | double (x : FloatVal)
  | bytes (bs : List Nat)
  | string (s : String)
  | fixed (size : Nat) (bs : List Nat)
  | enum (pos : Nat) (symbol : String)
  | union (pos : Nat) (inner : AvValue)
  | array (items : List AvValue)
  | map (entries : List (String × AvValue))
  | record (fields : List (String × AvValue))
  | date (days : Int)
  | decimal
  | timeMillis (x : Int)
  | timeMicros (x : Int)
  | timestampMillis (x : Int)
  | timestampMicros (x : Int)
  | localTimestampMillis (x : Int)
  | localTimestampMicros (x : Int)
  | duration (months days millis : Nat)
  | uuid (u : UuidVal)

/-- The avro Decoder state (struct Decoder in src/decoder/avro.rs, minus the
owned Schema, which is only consumed by the external avro parser). -/
structure AvroDecoder where
  array_types : List (String × SqlTypeT)
  map_types : List (String × SqlTypeT)
  name_overrides : List (String × String)
  include_fields : List String
  exclude_fields : List String
  null_values : List (String × CHValue)

/-- External chrono and clickhouse timestamp conversions
(CHValue::from(DateTime::from_timestamp_millis(x).unwrap()) and the micros
variant), taken as parameters: they involve the chrono calendar and are
outside the embedding; an error result models the unwrap panic on an
out-of-range timestamp. -/
structure Ext where
  tsMillis : Int → Except DecErr CHValue
  tsMicros : Int → Except DecErr CHValue

/-- std::time::Duration::from_millis: seconds and nanoseconds parts. -/
def durFromMillis (m : Nat) : Nat × Nat := (m / 1000, (m % 1000) * 1000000)

/-- std::time::Duration::from_secs. -/
def durFromSecs (s : Nat) : Nat × Nat := (s, 0)

/-- Addition of std::time Durations: nanosecond parts are below 10^9, their
sum carries at most one second. -/
def durAdd (a b : Nat × Nat) : Nat × Nat :=
  (a.1 + b.1 + (a.2 + b.2) / 1000000000, (a.2 + b.2) % 1000000000)

/-- Duration::as_millis (exact, returns u128 in rust). -/
def durAsMillis (d : Nat × Nat) : Nat := d.1 * 1000 + d.2 / 1000000

mutual
/-- Conversion of one avro value into a clickhouse value
(Decoder::avro2ch in src/decoder/avro.rs). The array and map cases collect
the converted elements first, then look up the column type and panic
(DecErr.panic) if it is missing, as the source unwrap does; the duration case
is the as-u64 cast of the flattened milliseconds. -/
def avro2ch (ext : Ext) (d : AvroDecoder) (column_name : String) (v : AvValue) :
    Except DecErr CHValue :=
  match v with
  | .null => .error (.err "unexpected null")
  | .record _ => .error (.err "unsupported nested record")
  | .boolean x => .ok (.bool x)
  | .int x => .ok (.int32 x)
  | .long x => .ok (.int64 x)
  | .float x => .ok (.float32 x)
  | .double x => .ok (.float64 x)
  | .bytes x => .ok (.str x)
  | .string x => .ok (.str (utf8Bytes x))
  | .fixed _ x => .ok (.str x)
  | .enum _ y => .ok (.str (utf8Bytes y))
  | .union _ inner =>
    match inner with
    | .null =>
      match d.null_values.find? (fun p => p.1 == column_name) with
      | none => .error (.err ("cannot find nullable field " ++ column_name))
      | some x => .ok x.2
    | w => avro2ch ext d column_name w
  | .array x =>
    match avro2chList ext d column_name x with
    | .error e => .error e
    | .ok arr =>
      match d.array_types.find? (fun p => p.1 == column_name) with
      | none => .error .panic
      | some t => .ok (.array t.2 arr)
  | .map x =>
    match avro2chEntries ext d column_name x with
    | .error e => .error e
    | .ok m =>
      match d.map_types.find? (fun p => p.1 == column_name) with
      | none => .error .panic
      | some t => .ok (.map .string t.2 m)
  | .date x => .ok (.date (Int.toNat (x % 65536)))
  | .decimal => .error (.err "unsupported decimal type")
  | .timeMillis x => .ok (.int32 x)
  | .timeMicros x => .ok (.int64 x)
  | .timestampMillis x => ext.tsMillis x
  | .timestampMicros x => ext.tsMicros x
  | .localTimestampMillis x => ext.tsMillis x
  | .localTimestampMicros x => ext.tsMicros x
  | .duration months days millis =>
    .ok (.uint64 (durAsMillis (durAdd (durAdd (durFromMillis millis)
      (durFromSecs (86400 * days))) (durFromSecs (30 * 86400 * months))) % 2 ^ 64))
  | .uuid x => .ok (.uuid x)
termination_by sizeOf v

/-- The element loop of the avro2ch array case. -/
def avro2chList (ext : Ext) (d : AvroDecoder) (column_name : String)
    (items : List AvValue) : Except DecErr (List CHValue) :=
  match items with
  | [] => .ok []
  | elem :: rest =>
    match avro2ch ext d column_name elem with
    | .error e => .error e
    | .ok v =>
      match avro2chList ext d column_name rest with
      | .error e => .error e
      | .ok vs => .ok (v :: vs)
termination_by sizeOf items

/-- The entry loop of the avro2ch map case; keys become clickhouse strings. -/
def avro2chEntries (ext : Ext) (d : AvroDecoder) (column_name : String)
    (entries : List (String × AvValue)) : Except DecErr (List (CHValue × CHValue)) :=
  match entries with
  | [] => .ok []
  | (k, v) :: rest =>
    match avro2ch ext d column_name v with
    | .error e => .error e
    | .ok cv =>
      match avro2chEntries ext d column_name rest with
      | .error e => .error e
      | .ok m => .ok ((.str (utf8Bytes k), cv) :: m)
termination_by sizeOf entries
end

/-- The emitted column name of Decoder::decode in src/decoder/avro.rs:
the override from name_overrides when configured, else the source field name. -/
def emittedName (d : AvroDecoder) (column : String) : String :=
  match d.name_overrides.find? (fun m => m.1 == column) with
  | none => column
  | some m => m.2

/-- The field loop of Decoder::decode in src/decoder/avro.rs: skip excluded
fields, skip fields outside a non-empty include list, convert the value,
apply the name override, append to the row. -/
def decodeRecord (ext : Ext) (d : AvroDecoder) :
    List (String × AvValue) → Except DecErr Row
  | [] => .ok []
  | (column, value) :: rest =>
    if d.exclude_fields.any (fun c => c == column) then
      decodeRecord ext d rest
    else if !d.include_fields.isEmpty && !(d.include_fields.any (fun c => c == column)) then
      decodeRecord ext d rest
    else
      match avro2ch ext d column value with
      | .error e => .error e
      | .ok v =>
        match decodeRecord ext d rest with
        | .error e => .error e
        | .ok row => .ok ((emittedName d column, v) :: row)

/-- Confluent header length (CONFLUENT_HEADER_LEN in src/decoder.rs). -/
def CONFLUENT_HEADER_LEN : Nat := 5

/-- The slice message[CONFLUENT_HEADER_LEN..] taken by Decoder::decode:
a rust slice with an out-of-bounds start panics, modeled as none. -/
def confluentStrip (message : List Nat) : Option (List Nat) :=
  if CONFLUENT_HEADER_LEN ≤ message.length then
    some (message.drop CONFLUENT_HEADER_LEN)
  else
    none

/-- Decoder::decode in src/decoder/avro.rs: strip the confluent header
(panicking on short messages, outer none), parse the datum with the external
avro parser (parameter), require a record, run the field loop. -/
def decode (ext : Ext) (parse : List Nat → Except String AvValue) (d : AvroDecoder)
    (message : List Nat) : Option (Except DecErr Row) :=
  match confluentStrip message with
  | none => none
  | some datum =>
    some (match parse datum with
      | .error e => .error (.err e)
      | .ok (.record x) => decodeRecord ext d x
      | .ok _ => .error (.err "avro message must be a record"))

/-- Specification-side filter predicate of the decode field loop: a field is
kept iff it is not excluded and (the include list is empty or contains it). -/
def keepField (d : AvroDecoder) (column : String) : Bool :=
  !(d.exclude_fields.any (fun c => c == column)) &&
    (d.include_fields.isEmpty || d.include_fields.any (fun c => c == column))

theorem exceptMapM_nil {α β ε : Type} (f : α → Except ε β) : List.mapM f [] = .ok [] := rfl

theorem exceptMapM_cons {α β ε : Type} (f : α → Except ε β) (a : α) (l : List α) :
    List.mapM f (a :: l) =
      match f a with
      | .error e => .error e
      | .ok b =>
        match List.mapM f l with
        | .error e => .error e
        | .ok bs => .ok (b :: bs) := by
  rw [List.mapM_cons]
  cases hf : f a with
  | error e => simp [Bind.bind, Except.bind]
  | ok b =>
    cases hl : l.mapM f with
    | error e => simp [Bind.bind, Except.bind, Pure.pure]
    | ok bs => simp [Bind.bind, Except.bind, Pure.pure, Except.pure]

/-- C6: the row emitted by the decode field loop is exactly the record fields,
in order, filtered by keepField (not excluded, and include-listed when the
include list is non-empty — so exclusion takes precedence over inclusion),
each value converted by avro2ch and emitted under the overridden column name. -/
theorem decode_field_filtering (ext : Ext) (d : AvroDecoder)
    (rec : List (String × AvValue)) :
    decodeRecord ext d rec =
      (rec.filter (fun p => keepField d p.1)).mapM
        (fun p => (avro2ch ext d p.1 p.2).map (fun v => (emittedName d p.1, v))) := by
  induction rec with
  | nil => rfl
  | cons hd rest ih =>
    obtain ⟨column, value⟩ := hd
    by_cases hex : (d.exclude_fields.any (fun c => c == column)) = true
    · have hk : keepField d column = false := by simp [keepField, hex]
      have hfc : List.filter (fun p => keepField d p.1) ((column, value) :: rest)
          = List.filter (fun p => keepField d p.1) rest := by
        simp [List.filter_cons, hk]
      have hl : decodeRecord ext d ((column, value) :: rest) = decodeRecord ext d rest := by
        simp [decodeRecord, hex]
      rw [hfc, hl, ih]
    · have hexf : (d.exclude_fields.any (fun c => c == column)) = false :=
        Bool.not_eq_true _ ▸ hex
      by_cases hinc :
          (!d.include_fields.isEmpty && !(d.include_fields.any (fun c => c == column))) = true
      · have hk : keepField d column = false := by
          simp only [Bool.and_eq_true, Bool.not_eq_true'] at hinc
          simp [keepField, hexf, hinc.1, hinc.2]
        have hfc : List.filter (fun p => keepField d p.1) ((column, value) :: rest)
            = List.filter (fun p => keepField d p.1) rest := by
          simp [List.filter_cons, hk]
        have hl : decodeRecord ext d ((column, value) :: rest) = decodeRecord ext d rest := by
          simp [decodeRecord, hexf, hinc]
        rw [hfc, hl, ih]
      · have hk : keepField d column = true := by
          simp only [Bool.and_eq_true, not_and, Bool.not_eq_true', Bool.not_eq_false] at hinc
          rcases he : d.include_fields.isEmpty with _ | _
          · have hany := hinc he
            simp [keepField, hexf, he, hany]
          · simp [keepField, hexf, he]
        have hincf :
            (!d.include_fields.isEmpty && !(d.include_fields.any (fun c => c == column))) = false :=
          Bool.not_eq_true _ ▸ hinc
        have hfc : List.filter (fun p => keepField d p.1) ((column, value) :: rest)
            = (column, value) :: List.filter (fun p => keepField d p.1) rest := by
          simp [List.filter_cons, hk]
        have hl : decodeRecord ext d ((column, value) :: rest) =
            (match avro2ch ext d column value with
            | .error e => .error e
            | .ok v =>
              match decodeRecord ext d rest with
              | .error e => .error e
              | .ok row => .ok ((emittedName d column, v) :: row)) := by
          simp only [decodeRecord, hexf, hincf, Bool.false_eq_true, if_false]
        rw [hfc, exceptMapM_cons, hl, ih]
        cases havro : avro2ch ext d column value with
        | error e => simp [havro, Except.map]
        | ok v =>
          cases hm : List.mapM
              (fun p => (avro2ch ext d p.1 p.2).map (fun v => (emittedName d p.1, v)))
              (List.filter (fun p => keepField d p.1) rest) with
          | error e => simp [havro, hm, Except.map]
          | ok row => simp [havro, hm, Except.map]

theorem avro2ch_union_null (ext : Ext) (d : AvroDecoder) (c : String) (pos : Nat) :
    avro2ch ext d c (.union pos .null) =
      match d.null_values.find? (fun p => p.1 == c) with
      | none => .error (.err ("cannot find nullable field " ++ c))
      | some x => .ok x.2 := by
  simp [avro2ch]

theorem avro2ch_union_nonnull (ext : Ext) (d : AvroDecoder) (c : String) (pos : Nat)
    (w : AvValue) (h : w ≠ AvValue.null) :
    avro2ch ext d c (.union pos w) = avro2ch ext d c w := by
  cases w
  case null => exact absurd rfl h
  all_goals simp [avro2ch]

theorem avro2ch_long (ext : Ext) (d : AvroDecoder) (c : String) (x : Int) :
    avro2ch ext d c (.long x) = .ok (.int64 x) := by
  simp [avro2ch]

theorem analyze_schema_ok_nullValues (fields : List FieldT)
    (arr m : List (String × SqlTypeT)) (nv : List (String × CHValue))
    (hok : analyze_schema fields = .ok (arr, m, nv)) :
    nullValuesLoop fields = .ok nv := by
  cases htm : typeMappingNew fields with
  | error e => simp [analyze_schema, htm] at hok
  | ok am =>
    obtain ⟨a, m'⟩ := am
    cases hl : nullValuesLoop fields with
    | error e => simp [analyze_schema, htm, hl] at hok
    | ok nv' =>
      simp only [analyze_schema, htm, hl, Except.ok.injEq, Prod.mk.injEq] at hok
      rw [← hok.2.2]

/-- C5: for every field declared as union [null, T] in a schema that passed
analysis, decoding a null datum for that field emits the type-appropriate zero
value from the null-value table, and a non-null union payload is converted by
recursing on the inner value; in particular for T = long the zero is Int64(0)
and a long 5 payload emits Int64(5). -/
theorem nullable_union_decode (ext : Ext) (fields : List FieldT)
    (arr m : List (String × SqlTypeT)) (nv : List (String × CHValue))
    (ovr : List (String × String)) (incl excl : List String)
    (n : String) (T : AvroSchema) (pos : Nat)
    (hnd : (fields.map Prod.fst).Nodup)
    (hmem : (n, AvroSchema.union [AvroSchema.null, T]) ∈ fields)
    (hok : analyze_schema fields = .ok (arr, m, nv)) :
    ∃ st z, get_schema_type T = .ok (st, z) ∧
      avro2ch ext ⟨arr, m, ovr, incl, excl, nv⟩ n (.union pos .null) = .ok z ∧
      (∀ w, w ≠ AvValue.null →
        avro2ch ext ⟨arr, m, ovr, incl, excl, nv⟩ n (.union pos w) =
          avro2ch ext ⟨arr, m, ovr, incl, excl, nv⟩ n w) ∧
      (T = AvroSchema.long → z = CHValue.int64 0 ∧
        avro2ch ext ⟨arr, m, ovr, incl, excl, nv⟩ n (.union pos (.long 5)) =
          .ok (.int64 5)) := by
  have hloop := analyze_schema_ok_nullValues fields arr m nv hok
  obtain ⟨o, ho⟩ := nullValuesLoop_ok_all fields nv hloop (n, .union [AvroSchema.null, T]) hmem
  rw [fieldNullValue_union_null] at ho
  cases hg : get_schema_type T with
  | error e => rw [hg] at ho; cases ho
  | ok q =>
    have hspec := nullValuesLoop_ok_spec fields nv hloop
    have hmemnv : (n, q.2) ∈ nv := by
      rw [hspec]
      refine List.mem_filterMap.2 ⟨(n, .union [AvroSchema.null, T]), hmem, ?_⟩
      simp [nullValueEntry, fieldNullValue_union_null, hg]
    have hnvnd : (nv.map Prod.fst).Nodup := by
      rw [hspec]
      exact (nullValuesSpec_keys_sublist fields).nodup hnd
    have hfind : nv.find? (fun p => p.1 == n) = some (n, q.2) :=
      find_eq_of_nodup nv n q.2 hnvnd hmemnv
    refine ⟨q.1, q.2, by simp [hg], ?_, ?_, ?_⟩
    · rw [avro2ch_union_null]
      simp [hfind]
    · intro w hw
      exact avro2ch_union_nonnull ext _ n pos w hw
    · intro hT
      subst hT
      refine ⟨?_, ?_⟩
      · have : get_schema_type AvroSchema.long = .ok (.int64, .int64 0) := rfl
        rw [this] at hg
        exact congrArg Prod.snd (Except.ok.inj hg) |>.symm ▸ rfl
      · rw [avro2ch_union_nonnull ext _ n pos _ (by intro hc; cases hc), avro2ch_long]

/-- A decoder state with all tables empty, used to evaluate the claims at
concrete inputs. -/
def emptyDec : AvroDecoder := ⟨[], [], [], [], [], []⟩

/-- Concrete timestamp conversion stub used to evaluate the claims. -/
def extStub : Ext := ⟨fun _ => .error (.err "timestamp"), fun _ => .error (.err "timestamp")⟩

/-- Concrete avro parser stub used to evaluate the claims. -/
def parseStub : List Nat → Except String AvValue := fun _ => .error "parse error"

/-- Witness for nullable_union_decode: the schema with single field x of type
union [null, long] is analyzed and a null payload decodes to Int64(0),
a long 5 payload to Int64(5). -/
theorem nullable_union_decode_witness :
    ∃ st z, get_schema_type AvroSchema.long = .ok (st, z) ∧
      avro2ch extStub ⟨[], [], [], [], [], [("x", CHValue.int64 0)]⟩ "x"
        (.union 0 .null) = .ok z ∧
      (∀ w, w ≠ AvValue.null →
        avro2ch extStub ⟨[], [], [], [], [], [("x", CHValue.int64 0)]⟩ "x" (.union 0 w) =
          avro2ch extStub ⟨[], [], [], [], [], [("x", CHValue.int64 0)]⟩ "x" w) ∧
      (AvroSchema.long = AvroSchema.long → z = CHValue.int64 0 ∧
        avro2ch extStub ⟨[], [], [], [], [], [("x", CHValue.int64 0)]⟩ "x"
          (.union 0 (.long 5)) = .ok (.int64 5)) :=
  nullable_union_decode extStub [("x", AvroSchema.union [AvroSchema.null, AvroSchema.long])]
    [] [] [("x", CHValue.int64 0)] [] [] [] "x" AvroSchema.long 0
    (by simp) (by simp) rfl

/-- C7: for u32 duration components, the converted value is UInt64 of exactly
(months·30·86400 + days·86400)·1000 + millis; the computation through
std Duration arithmetic and the final as-u64 cast is exact: the value fits in
64 bits for all u32 inputs, so nothing overflows or truncates. -/
theorem duration_flattening_exact (ext : Ext) (d : AvroDecoder) (c : String)
    (months days millis : Nat)
    (hm : months < 2 ^ 32) (hd : days < 2 ^ 32) (hmi : millis < 2 ^ 32) :
    avro2ch ext d c (.duration months days millis) =
      .ok (.uint64 ((months * 30 * 86400 + days * 86400) * 1000 + millis)) ∧
    (months * 30 * 86400 + days * 86400) * 1000 + millis < 2 ^ 64 := by
  have hbound : (months * 30 * 86400 + days * 86400) * 1000 + millis < 2 ^ 64 := by
    have h1 : months * 30 * 86400 ≤ (2 ^ 32 - 1) * 30 * 86400 := by
      have := Nat.le_of_lt_succ (by omega : months < Nat.succ (2 ^ 32 - 1))
      exact Nat.mul_le_mul_right _ (Nat.mul_le_mul_right _ this)
    omega
  have hcore : durAsMillis (durAdd (durAdd (durFromMillis millis)
      (durFromSecs (86400 * days))) (durFromSecs (30 * 86400 * months))) % 2 ^ 64 =
      (months * 30 * 86400 + days * 86400) * 1000 + millis := by
    simp only [durFromMillis, durFromSecs, durAdd, durAsMillis]
    omega
  refine ⟨?_, hbound⟩
  simp only [avro2ch, hcore]

/-- Witness for duration_flattening_exact: months 1, days 2, millis 3 converts
to UInt64((1·30·86400 + 2·86400)·1000 + 3). -/
theorem duration_flattening_exact_witness :
    avro2ch extStub emptyDec "c" (.duration 1 2 3) =
      .ok (.uint64 ((1 * 30 * 86400 + 2 * 86400) * 1000 + 3)) ∧
    (1 * 30 * 86400 + 2 * 86400) * 1000 + 3 < 2 ^ 64 :=
  duration_flattening_exact extStub emptyDec "c" 1 2 3
    (by norm_num) (by norm_num) (by norm_num)

/-- C9: Decoder::decode is partial over raw inputs: stripping the 5-byte
confluent header is a slice that panics (none) exactly when the message is
shorter than 5 bytes, whatever the parser and decoder state; for messages of
at least 5 bytes decode returns a proper result. -/
theorem decode_short_message_panics (ext : Ext)
    (parse : List Nat → Except String AvValue) (d : AvroDecoder) (message : List Nat) :
    (message.length < CONFLUENT_HEADER_LEN → decode ext parse d message = none) ∧
    (confluentStrip message = none ↔ message.length < CONFLUENT_HEADER_LEN) ∧
    (CONFLUENT_HEADER_LEN ≤ message.length → ∃ r, decode ext parse d message = some r) := by
  refine ⟨?_, ?_, ?_⟩
  · intro h
    have hs : confluentStrip message = none := by
      simp only [confluentStrip, ite_eq_right_iff]
      omega
    simp [decode, hs]
  · simp only [confluentStrip]
    split
    · simp
      omega
    · simp
      omega
  · intro h
    have hs : confluentStrip message = some (message.drop CONFLUENT_HEADER_LEN) := by
      simp [confluentStrip, h]
    refine ⟨match parse (message.drop CONFLUENT_HEADER_LEN) with
      | .error e => .error (.err e)
      | .ok (.record x) => decodeRecord ext d x
      | .ok _ => .error (.err "avro message must be a record"), ?_⟩
    simp only [decode, hs]

/-- Witness for decode_short_message_panics: a 3-byte message panics (none),
a 5-byte message yields a proper result. -/
theorem decode_short_message_panics_witness :
    decode extStub parseStub emptyDec [0, 1, 2] = none ∧
    (∃ r, decode extStub parseStub emptyDec [0, 1, 2, 3, 4] = some r) :=
  ⟨(decode_short_message_panics extStub parseStub emptyDec [0, 1, 2]).1
      (by simp [CONFLUENT_HEADER_LEN]),
    (decode_short_message_panics extStub parseStub emptyDec [0, 1, 2, 3, 4]).2.2
      (by simp [CONFLUENT_HEADER_LEN])⟩

/-- The decoder chosen by the factory (src/decoder.rs get_decoder): the
example JSON decoder, the avro decoder built from custom settings, or the
static avro example decoder registered under the name test-avro. -/
inductive DecoderChoice
  | exampleDecoder
  | avroDecoder (d : AvroDecoder)
  | staticAvroExample

/-- get_decoder in src/decoder.rs. The avro branch converts the custom toml
settings and runs the asynchronous avro::new constructor (file or registry
I/O); both are folded into the avroNew parameter, which stands for that
construction applied to the present settings. hasSettings models whether the
custom settings are Some or None. The test-avro branch constructs the static
example decoder from a constant valid schema literal, which succeeds. -/
def get_decoder (avroNew : Except String AvroDecoder) (name : String)
    (hasSettings : Bool) : Except String DecoderChoice :=
  if name = "example" then .ok .exampleDecoder
  else if name = "avro" then
    (if hasSettings then avroNew.map .avroDecoder else .error "avro config missing")
  else if name = "test-avro" then .ok .staticAvroExample
  else .error ("unknown decoder " ++ name)

/-- C8 counterexample: the factory also resolves the name test-avro, which is
neither example nor avro, to a decoder instead of failing with
"unknown decoder test-avro" as the claim states. -/
theorem get_decoder_test_avro_counterexample :
    get_decoder (.error "unused") "test-avro" false = .ok .staticAvroExample ∧
    "test-avro" ≠ "example" ∧ "test-avro" ≠ "avro" ∧
    get_decoder (.error "unused") "test-avro" false ≠
      .error ("unknown decoder " ++ "test-avro") := by
  refine ⟨rfl, by decide, by decide, by intro h; exact Except.noConfusion h⟩

/-- C8 (amended): the factory resolves exactly the names example, avro and
test-avro; the avro branch fails with "avro config missing" when the custom
settings are absent and otherwise returns the constructed avro decoder; every
other name fails with the error "unknown decoder " followed by the name. -/
theorem get_decoder_registry_amended (avroNew : Except String AvroDecoder)
    (name : String) (hasSettings : Bool) :
    get_decoder avroNew "example" hasSettings = .ok .exampleDecoder ∧
    get_decoder avroNew "avro" false = .error "avro config missing" ∧
    get_decoder avroNew "avro" true = avroNew.map .avroDecoder ∧
    get_decoder avroNew "test-avro" hasSettings = .ok .staticAvroExample ∧
    (name ≠ "example" → name ≠ "avro" → name ≠ "test-avro" →
      get_decoder avroNew name hasSettings = .error ("unknown decoder " ++ name)) := by
  refine ⟨rfl, rfl, rfl, rfl, ?_⟩
  intro h1 h2 h3
  simp [get_decoder, h1, h2, h3]

/-- Witness for get_decoder_registry_amended: the name ch-proto is unknown. -/
theorem get_decoder_registry_amended_witness :
    get_decoder (.error "unused") "ch-proto" false =
      .error ("unknown decoder " ++ "ch-proto") :=
  (get_decoder_registry_amended (.error "unused") "ch-proto" false).2.2.2.2
    (by decide) (by decide) (by decide)

/-- The per-window offset map of Ingester::get_batch: (topic, partition) to
the raw next offset. The source uses a HashMap; the model is an association
list with HashMap insert (replace or append) semantics, and all claims are
about lookups. -/
abbrev OffsetMap := List ((String × Int) × Int)

/-- HashMap::get on the offset map. -/
def offsetLookup (m : OffsetMap) (k : String × Int) : Option Int :=
  (m.find? (fun e => decide (e.1 = k))).map (fun e => e.2)

/-- HashMap::insert on the offset map: replace the entry if present,
append otherwise. -/
def offsetInsert (m : OffsetMap) (k : String × Int) (v : Int) : OffsetMap :=
  match m with
  | [] => [(k, v)]
  | (k', v') :: rest =>
    if k' = k then (k, v) :: rest else (k', v') :: offsetInsert rest k v

/-- The offset update of Ingester::get_batch: insert when the key is absent,
overwrite only when the stored offset is smaller than the next offset. -/
def recordOffset (m : OffsetMap) (k : String × Int) (next : Int) : OffsetMap :=
  match offsetLookup m k with
  | none => offsetInsert m k next
  | some off => if off < next then offsetInsert m k next else m

theorem offsetLookup_insert (m : OffsetMap) (k : String × Int) (v : Int) (k' : String × Int) :
    offsetLookup (offsetInsert m k v) k' = if k' = k then some v else offsetLookup m k' := by
  induction m with
  | nil =>
    by_cases h : k' = k
    · subst h
      simp [offsetInsert, offsetLookup, List.find?]
    · have h2 : ¬(k = k') := fun hc => h hc.symm
      simp [offsetInsert, offsetLookup, List.find?, h, h2]
  | cons e rest ih =>
    obtain ⟨k0, v0⟩ := e
    by_cases h0 : k0 = k
    · subst h0
      by_cases h : k' = k0
      · subst h
        simp [offsetInsert, offsetLookup, List.find?]
      · have h2 : ¬(k0 = k') := fun hc => h hc.symm
        simp [offsetInsert, offsetLookup, List.find?, h, h2]
    · by_cases h : k0 = k'
      · subst h
        simp [offsetInsert, offsetLookup, List.find?, h0]
      · simp only [offsetInsert, if_neg h0, offsetLookup, List.find?,
          decide_eq_true_eq, h, decide_eq_false h]
        simpa [offsetLookup] using ih

/-- Maximum of optional offsets, with none as identity. -/
def optMax : Option Int → Option Int → Option Int
  | none, b => b
  | some v, none => some v
  | some v, some w => some (max v w)

/-- Ordering of optional offsets: none is below everything. -/
def optLe : Option Int → Option Int → Prop
  | none, _ => True
  | some _, none => False
  | some v, some w => v ≤ w

theorem optMax_none_right (a : Option Int) : optMax a none = a := by
  cases a <;> rfl

theorem optMax_assoc (a b c : Option Int) :
    optMax (optMax a b) c = optMax a (optMax b c) := by
  cases a <;> cases b <;> cases c <;> simp [optMax, max_assoc]

theorem optLe_self_optMax (a b : Option Int) : optLe a (optMax a b) := by
  cases a <;> cases b <;> simp [optMax, optLe, le_max_left]

theorem offsetLookup_record (m : OffsetMap) (k : String × Int) (n : Int) (k' : String × Int) :
    offsetLookup (recordOffset m k n) k' =
      if k' = k then optMax (offsetLookup m k) (some n) else offsetLookup m k' := by
  cases hl : offsetLookup m k with
  | none =>
    simp only [recordOffset, hl, offsetLookup_insert, optMax]
  | some off =>
    by_cases hlt : off < n
    · simp only [recordOffset, hl, if_pos hlt, offsetLookup_insert, optMax]
      by_cases h : k' = k
      · simp [h, max_eq_right (le_of_lt hlt)]
      · simp [h]
    · simp only [recordOffset, hl, if_neg hlt, optMax]
      by_cases h : k' = k
      · simp [h, hl, max_eq_left (not_lt.1 hlt)]
      · simp [h]

/-- A received kafka message as seen by Ingester::get_batch: topic, partition,
offset and optional payload (None is a tombstone). -/
structure Msg where
  topic : String
  partition : Int
  offset : Int
  payload : Option (List Nat)

/-- The window state of Ingester::get_batch: the per-window offset map and the
accumulated batch of rows. -/
structure WinState where
  offsets : OffsetMap
  batch : List Row

/-- Result of one get_batch iteration: the updated state, or a panic carrying
the offset map at the moment msg.payload().unwrap() fired. -/
inductive StepResult
  | ok (s : WinState)
  | panicked (offsets : OffsetMap)

/-- One iteration of the receive loop of Ingester::get_batch: the offset map
is updated first (to max(existing, offset + 1)); then the payload is
unwrapped — a missing payload panics — and decoded, a decoded row is appended
to the batch and a decode failure is logged and dropped. The decoder is a
parameter. -/
def getBatchStep (dec : List Nat → Except String Row) (s : WinState) (msg : Msg) :
    StepResult :=
  let k := (msg.topic, msg.partition)
  let next := msg.offset + 1
  let offsets1 := recordOffset s.offsets k next
  match msg.payload with
  | none => .panicked offsets1
  | some p =>
    match dec p with
    | .ok row => .ok ⟨offsets1, s.batch ++ [row]⟩
    | .error _ => .ok ⟨offsets1, s.batch⟩

/-- The receive loop of Ingester::get_batch over the messages received in one
batch window (the window boundary — batch_size reached, timeout or transport
error — determines the message list and is external to the loop body). -/
def runWindow (dec : List Nat → Except String Row) (s : WinState) :
    List Msg → StepResult
  | [] => .ok s
  | msg :: rest =>
    match getBatchStep dec s msg with
    | .ok s1 => runWindow dec s1 rest
    | .panicked o => .panicked o

/-- Specification-side maximum next offset of a key over a message list:
the maximum of offset + 1 over the messages with that (topic, partition),
none when there is no such message. -/
def maxNext (k : String × Int) : List Msg → Option Int
  | [] => none
  | msg :: rest =>
    optMax (if (msg.topic, msg.partition) = k then some (msg.offset + 1) else none)
      (maxNext k rest)

theorem maxNext_append (k : String × Int) (a b : List Msg) :
    maxNext k (a ++ b) = optMax (maxNext k a) (maxNext k b) := by
  induction a with
  | nil => simp [maxNext, optMax]
  | cons msg rest ih => simp [maxNext, ih, optMax_assoc]

theorem runWindow_offsets (dec : List Nat → Except String Row) (msgs : List Msg)
    (s0 s : WinState) (k : String × Int) (h : runWindow dec s0 msgs = .ok s) :
    offsetLookup s.offsets k = optMax (offsetLookup s0.offsets k) (maxNext k msgs) := by
  induction msgs generalizing s0 with
  | nil =>
    simp only [runWindow, StepResult.ok.injEq] at h
    subst h
    rw [maxNext, optMax_none_right]
  | cons msg rest ih =>
    have hstep : ∀ s1, getBatchStep dec s0 msg = .ok s1 →
        s1.offsets = recordOffset s0.offsets (msg.topic, msg.partition) (msg.offset + 1) := by
      intro s1 hs
      cases hp : msg.payload with
      | none => simp [getBatchStep, hp] at hs
      | some p =>
        cases hd : dec p with
        | ok row =>
          simp only [getBatchStep, hp, hd, StepResult.ok.injEq] at hs
          rw [← hs]
        | error e =>
          simp only [getBatchStep, hp, hd, StepResult.ok.injEq] at hs
          rw [← hs]
    cases hg : getBatchStep dec s0 msg with
    | panicked o =>
      simp only [runWindow, hg] at h
      exact StepResult.noConfusion h
    | ok s1 =>
      simp only [runWindow, hg] at h
      rw [ih s1 h, hstep s1 hg, maxNext, ← optMax_assoc, offsetLookup_record]
      by_cases hk : k = (msg.topic, msg.partition)
      · subst hk
        simp
      · have hk2 : ¬((msg.topic, msg.partition) = k) := fun hc => hk hc.symm
        simp only [if_neg hk, if_neg hk2, optMax_none_right]

/-- C2: for any decoder behaviour and any sequence of messages received in
one batch window, the offset map entry of each (topic, partition) at window
end equals the maximum of offset + 1 over the messages received for that key
(none when there is none) — regardless of whether their payloads decoded —
and along any prefix of the window the entry is monotone non-decreasing. -/
theorem offset_map_max_next (dec : List Nat → Except String Row) (msgs : List Msg)
    (s : WinState) (k : String × Int)
    (hrun : runWindow dec ⟨[], []⟩ msgs = .ok s) :
    offsetLookup s.offsets k = maxNext k msgs ∧
    (∀ pre suf s1, msgs = pre ++ suf → runWindow dec ⟨[], []⟩ pre = .ok s1 →
      optLe (offsetLookup s1.offsets k) (offsetLookup s.offsets k)) := by
  have hmain : offsetLookup s.offsets k = maxNext k msgs := by
    simpa [optMax, offsetLookup, List.find?] using
      runWindow_offsets dec msgs ⟨[], []⟩ s k hrun
  refine ⟨hmain, ?_⟩
  intro pre suf s1 hsplit hpre
  have h1 : offsetLookup s1.offsets k = maxNext k pre := by
    simpa [optMax, offsetLookup, List.find?] using
      runWindow_offsets dec pre ⟨[], []⟩ s1 k hpre
  rw [h1, hmain, hsplit, maxNext_append]
  exact optLe_self_optMax _ _

/-- Concrete decoder for the poison-pill scenario: decoding fails exactly on
the payload [5]. -/
def poisonDec : List Nat → Except String Row := fun p =>
  if p = [5] then .error "failed to decode message" else .ok [("v", CHValue.int64 0)]

/-- Ten messages at offsets 0 to 9 on one (topic, partition), each carrying
its offset as payload. -/
def poisonMsgs : List Msg :=
  [⟨"t", 0, 0, some [0]⟩, ⟨"t", 0, 1, some [1]⟩, ⟨"t", 0, 2, some [2]⟩,
    ⟨"t", 0, 3, some [3]⟩, ⟨"t", 0, 4, some [4]⟩, ⟨"t", 0, 5, some [5]⟩,
    ⟨"t", 0, 6, some [6]⟩, ⟨"t", 0, 7, some [7]⟩, ⟨"t", 0, 8, some [8]⟩,
    ⟨"t", 0, 9, some [9]⟩]

/-- The window state after the poison-pill scenario: committed next offset 10
and nine decoded rows (message 5 was dropped). -/
def poisonFinal : WinState :=
  ⟨[(("t", 0), 10)], List.replicate 9 [("v", CHValue.int64 0)]⟩

/-- Witness for offset_map_max_next: the poison-pill window. Among ten
messages at offsets 0..9 whose fifth payload fails to decode, the batch holds
nine rows and the offset entry is 10 = max(offset + 1), matching maxNext. -/
theorem offset_map_max_next_witness :
    runWindow poisonDec ⟨[], []⟩ poisonMsgs = .ok poisonFinal ∧
    offsetLookup poisonFinal.offsets ("t", 0) = maxNext ("t", 0) poisonMsgs ∧
    maxNext ("t", 0) poisonMsgs = some 10 ∧
    poisonFinal.batch.length = 9 ∧
    offsetLookup poisonFinal.offsets ("t", 0) = some 10 :=
  ⟨rfl, (offset_map_max_next poisonDec poisonMsgs poisonFinal ("t", 0) rfl).1,
    rfl, rfl, rfl⟩

/-- C10: a received message with an absent payload makes the get_batch loop
body panic at msg.payload().unwrap(), after its offset has already been
recorded in the window offset map — the panic result carries the updated map —
whereas a message whose payload is present but fails to decode is logged and
dropped: the loop continues with the same batch and the updated offset map. -/
theorem absent_payload_panics (dec : List Nat → Except String Row)
    (s : WinState) (msg : Msg) :
    (msg.payload = none →
      getBatchStep dec s msg =
        .panicked (recordOffset s.offsets (msg.topic, msg.partition) (msg.offset + 1))) ∧
    (∀ p e, msg.payload = some p → dec p = .error e →
      getBatchStep dec s msg =
        .ok ⟨recordOffset s.offsets (msg.topic, msg.partition) (msg.offset + 1), s.batch⟩) := by
  constructor
  · intro hp
    simp [getBatchStep, hp]
  · intro p e hp hd
    simp [getBatchStep, hp, hd]

/-- Witness for absent_payload_panics: a tombstone at offset 7 panics with the
offset 8 already recorded; the same message with an undecodable payload is
dropped while the offset map still advances to 8. -/
theorem absent_payload_panics_witness :
    getBatchStep poisonDec ⟨[], []⟩ ⟨"t", 0, 7, none⟩ =
      .panicked (recordOffset [] ("t", 0) 8) ∧
    getBatchStep poisonDec ⟨[], []⟩ ⟨"t", 0, 7, some [5]⟩ =
      .ok ⟨recordOffset [] ("t", 0) 8, []⟩ :=
  ⟨(absent_payload_panics poisonDec ⟨[], []⟩ ⟨"t", 0, 7, none⟩).1 rfl,
    (absent_payload_panics poisonDec ⟨[], []⟩ ⟨"t", 0, 7, some [5]⟩).2
      [5] "failed to decode message" rfl rfl⟩

/-- Observable events of Ingester::try_insert: an insert_batch call showing
the batch content it was given, and the single offset-commit call with its
outcome (the source consumes the commit result with unwrap_or_else(log), so
the outcome never influences control flow). -/
inductive FlushEvent
  | insertCall (batch : List Row)
  | commitCall (ok : Bool)

/-- Ingester::insert_batch in src/ingester.rs projected on the batch: an empty
batch returns Ok without touching the database; otherwise the single dbOk
flag stands for the database interaction of this attempt (get_handle, block
building and insert), the batch is truncated to empty exactly on success and
left untouched on failure. -/
def insert_batch (dbOk : Bool) (batch : List Row) : List Row × Bool :=
  if batch.isEmpty then (batch, true)
  else if dbOk then ([], true)
  else (batch, false)

/-- Ingester::try_insert in src/ingester.rs: keep calling insert_batch until
it succeeds (sleeping between attempts), then commit the offsets exactly once
and return; a commit failure is only logged. The outcomes list feeds one dbOk
flag per attempt; none models a run whose outcome list is exhausted with the
loop still retrying. Returns the event trace and the final batch. -/
def try_insert (commitOk : Bool) (outcomes : List Bool) (batch : List Row) :
    Option (List FlushEvent × List Row) :=
  match outcomes with
  | [] => none
  | o :: rest =>
    match insert_batch o batch with
    | (b1, true) => some ([.insertCall batch, .commitCall commitOk], b1)
    | (b1, false) =>
      match try_insert commitOk rest b1 with
      | none => none
      | some (evs, bf) => some (.insertCall batch :: evs, bf)

/-- C1: when insert_batch fails m times and then succeeds on a non-empty
batch, every one of the m + 1 insert attempts is presented the identical
batch (failures do not clear or modify it), the batch is truncated to empty
exactly at the successful insert, and the offset commit is invoked exactly
once, after the successful insert, with no further insert or commit
afterwards — whatever the commit outcome (a commit failure is only logged). -/
theorem insert_retry_trace (m : Nat) (b : List Row) (commitOk : Bool) (hb : b ≠ []) :
    try_insert commitOk (List.replicate m false ++ [true]) b =
      some (List.replicate (m + 1) (FlushEvent.insertCall b) ++
        [FlushEvent.commitCall commitOk], []) := by
  have hne : b.isEmpty = false := by
    cases b with
    | nil => exact absurd rfl hb
    | cons x xs => rfl
  induction m with
  | zero =>
    simp [try_insert, insert_batch, hne, List.replicate]
  | succ m ih =>
    rw [List.replicate_succ, List.cons_append]
    rw [show try_insert commitOk (false :: (List.replicate m false ++ [true])) b =
      (match try_insert commitOk (List.replicate m false ++ [true]) b with
        | none => none
        | some (evs, bf) => some (.insertCall b :: evs, bf)) from by
        simp [try_insert, insert_batch, hne]]
    rw [ih]
    simp [List.replicate_succ]

/-- Witness for insert_retry_trace: two failures then success on a one-row
batch, with a failing commit. -/
theorem insert_retry_trace_witness :
    try_insert false (List.replicate 2 false ++ [true]) [[("a", CHValue.int64 1)]] =
      some (List.replicate 3 (FlushEvent.insertCall [[("a", CHValue.int64 1)]]) ++
        [FlushEvent.commitCall false], []) :=
  insert_retry_trace 2 [[("a", CHValue.int64 1)]] false (by simp)

end Chafka
